import Mathlib

/-!
Verification of the DYKSlop fact-video pipeline (timing & segmentation core).

Shallow embedding of the Python sources:
  * `visual_processing.py`  : `split_text_into_word_chunks`, `estimate_sentence_duration`,
                              `create_dynamic_text_clips` (timing part)
  * `audio_processing.py`   : `analyze_voiceover_timing`
  * `fact_retrieval.py`     : `get_fact`
  * `video_assembly.py`     : `download_background_clip` (source loop),
                              `assemble_multi_background_video` (background-segment loop)

Texts are modelled as `List Char`; real-valued durations as `ℚ` (exact arithmetic
standing in for Python floats); fallible code returns `Except PyErr _`.
-/

deriving instance DecidableEq for Except

/-- Python exceptions that the modelled code can raise. -/
inductive PyErr where
  | zeroDivisionError
  | indexError
deriving DecidableEq, Repr

/-- Whitespace characters recognised by Python's `str.split()` (no arguments). -/
def isPySpace (c : Char) : Bool :=
  c == ' ' || c == '\t' || c == '\n' || c == '\r' || c == '\x0b' || c == '\x0c'

/-- Characters matched by the regex class `\w` (ASCII model): alphanumerics and underscore. -/
def isWordChar (c : Char) : Bool :=
  c.isAlphanum || c == '_'

/-- Splits a character list into the maximal runs of characters satisfying `p`,
dropping the characters that do not satisfy `p`.  `acc` holds the (reversed)
run currently being accumulated. -/
def splitRunsAux (p : Char → Bool) : List Char → List Char → List (List Char)
  | [], acc => if acc = [] then [] else [acc.reverse]
  | c :: cs, acc =>
    if p c then splitRunsAux p cs (c :: acc)
    else if acc = [] then splitRunsAux p cs []
    else acc.reverse :: splitRunsAux p cs []

/-- Maximal runs of characters satisfying `p`. -/
def splitRuns (p : Char → Bool) (s : List Char) : List (List Char) :=
  splitRunsAux p s []

/-- Model of Python's `text.split()`: maximal runs of non-whitespace characters. -/
def pySplit (s : List Char) : List (List Char) :=
  splitRuns (fun c => !isPySpace c) s

/-- Model of Python's `re.findall(r'\w+', s)`: maximal runs of word characters. -/
def wordTokens (s : List Char) : List (List Char) :=
  splitRuns isWordChar s

/-- Model of Python's `sep.join(parts)` for a one-character separator. -/
def joinSep (sep : Char) : List (List Char) → List Char
  | [] => []
  | [w] => w
  | w :: ws => w ++ sep :: joinSep sep ws

/-- Structural helper for `sliceList`: `fuel` bounds the number of slices taken
(any bound at least the list length is enough). -/
def sliceListGo (k : ℕ) : ℕ → List (List Char) → List (List (List Char))
  | _, [] => []
  | 0, _ :: _ => []
  | fuel + 1, x :: xs => (x :: xs.take (k - 1)) :: sliceListGo k fuel (xs.drop (k - 1))

/-- Model of the Python slicing loop `for i in range(0, len(xs), k): xs[i:i+k]`
for `k ≥ 1` (Python raises `ValueError` on `k = 0`; theorems assume `0 < k`). -/
def sliceList (k : ℕ) (ws : List (List Char)) : List (List (List Char)) :=
  sliceListGo k ws.length ws

theorem sliceListGo_nil (k : ℕ) (fuel : ℕ) : sliceListGo k fuel [] = [] := by
  cases fuel <;> rfl

theorem sliceListGo_fuel_irrel (k : ℕ) :
    ∀ fuel1 fuel2 ws, List.length ws ≤ fuel1 → List.length ws ≤ fuel2 →
      sliceListGo k fuel1 ws = sliceListGo k fuel2 ws := by
  intro fuel1
  induction fuel1 with
  | zero =>
    intro fuel2 ws hws _
    rw [List.length_eq_zero.mp (Nat.le_zero.mp hws), sliceListGo_nil, sliceListGo_nil]
  | succ fuel1 ih =>
    intro fuel2 ws h1 h2
    cases ws with
    | nil => rw [sliceListGo_nil, sliceListGo_nil]
    | cons x xs =>
      cases fuel2 with
      | zero => simp at h2
      | succ fuel2 =>
        rw [sliceListGo, sliceListGo]
        rw [ih fuel2 (xs.drop (k - 1))
          (by simp only [List.length_drop]; simp at h1; omega)
          (by simp only [List.length_drop]; simp at h2; omega)]

theorem sliceListGo_fuel (k : ℕ) (fuel : ℕ) (ws : List (List Char))
    (hws : List.length ws ≤ fuel) : sliceListGo k fuel ws = sliceList k ws :=
  sliceListGo_fuel_irrel k fuel ws.length ws hws le_rfl

/-- Unfolding equation of `sliceList` on a non-empty list. -/
theorem sliceList_cons (k : ℕ) (x : List Char) (xs : List (List Char)) :
    sliceList k (x :: xs) = (x :: xs.take (k - 1)) :: sliceList k (xs.drop (k - 1)) := by
  show sliceListGo k (xs.length + 1) (x :: xs) = _
  rw [sliceListGo, sliceListGo_fuel k xs.length (xs.drop (k - 1)) (by simp [List.length_drop])]

/-- Embedding of `visual_processing.split_text_into_word_chunks` (lines 120-138):
`words = text.split()`, then for each `i` in `range(0, len(words), k)` the chunk
`" ".join(words[i:i+k])`. -/
def split_text_into_word_chunks (text : List Char) (max_words_per_chunk : ℕ) :
    List (List Char) :=
  (sliceList max_words_per_chunk (pySplit text)).map (joinSep ' ')

section SplitRunsLemmas

variable (p : Char → Bool)

theorem splitRunsAux_mem (cs : List Char) :
    ∀ acc, (∀ c ∈ acc, p c = true) →
      ∀ r ∈ splitRunsAux p cs acc, r ≠ [] ∧ ∀ c ∈ r, p c = true := by
  induction cs with
  | nil =>
    intro acc hacc r hr
    by_cases h : acc = []
    · simp [splitRunsAux, h] at hr
    · simp [splitRunsAux, h] at hr
      subst hr
      refine ⟨by simpa using h, ?_⟩
      intro c hc
      exact hacc c (by simpa using hc)
  | cons c cs ih =>
    intro acc hacc r hr
    by_cases hp : p c = true
    · rw [splitRunsAux, if_pos hp] at hr
      refine ih (c :: acc) ?_ r hr
      intro d hd
      rcases List.mem_cons.mp hd with h | h
      · subst h; exact hp
      · exact hacc d h
    · rw [splitRunsAux, if_neg hp] at hr
      by_cases h : acc = []
      · rw [if_pos h] at hr
        exact ih [] (by simp) r hr
      · rw [if_neg h] at hr
        rcases List.mem_cons.mp hr with h1 | h1
        · subst h1
          refine ⟨by simpa using h, ?_⟩
          intro d hd
          exact hacc d (by simpa using hd)
        · exact ih [] (by simp) r h1

theorem splitRuns_mem (s : List Char) :
    ∀ r ∈ splitRuns p s, r ≠ [] ∧ ∀ c ∈ r, p c = true :=
  splitRunsAux_mem p s [] (by simp)

theorem splitRunsAux_word (w : List Char) (hw : ∀ c ∈ w, p c = true) :
    ∀ cs acc, splitRunsAux p (w ++ cs) acc = splitRunsAux p cs (w.reverse ++ acc) := by
  induction w with
  | nil => intro cs acc; simp
  | cons c w ih =>
    intro cs acc
    have hc : p c = true := hw c (by simp)
    have hw' : ∀ d ∈ w, p d = true := fun d hd => hw d (by simp [hd])
    rw [List.cons_append, splitRunsAux, if_pos hc, ih hw' cs (c :: acc)]
    simp

theorem splitRunsAux_sep (sep : Char) (hsep : p sep = false) (cs : List Char)
    (acc : List Char) (hacc : acc ≠ []) :
    splitRunsAux p (sep :: cs) acc = acc.reverse :: splitRunsAux p cs [] := by
  rw [splitRunsAux, if_neg (by simp [hsep]), if_neg hacc]

/-- Round trip: joining non-empty, separator-free words with a separator character
and splitting again recovers the original word list. -/
theorem splitRuns_joinSep (sep : Char) (hsep : p sep = false) :
    ∀ ws : List (List Char), (∀ w ∈ ws, w ≠ [] ∧ ∀ c ∈ w, p c = true) →
      splitRuns p (joinSep sep ws) = ws := by
  intro ws
  induction ws with
  | nil => intro _; simp [joinSep, splitRuns, splitRunsAux]
  | cons w ws ih =>
    intro h
    obtain ⟨hw, hwp⟩ := h w (by simp)
    cases ws with
    | nil =>
      show splitRuns p (joinSep sep [w]) = [w]
      rw [joinSep, splitRuns]
      have := splitRunsAux_word p w hwp [] []
      simp at this
      rw [this, splitRunsAux, if_neg (by simpa using hw)]
      simp
    | cons w2 ws2 =>
      show splitRuns p (w ++ sep :: joinSep sep (w2 :: ws2)) = w :: w2 :: ws2
      rw [splitRuns, splitRunsAux_word p w hwp]
      rw [List.append_nil]
      rw [splitRunsAux_sep p sep hsep _ _ (by simpa using hw)]
      simp only [List.reverse_reverse]
      have ih' := ih (fun x hx => h x (by simp [hx]))
      rw [show splitRunsAux p (joinSep sep (w2 :: ws2)) [] =
            splitRuns p (joinSep sep (w2 :: ws2)) from rfl, ih']

end SplitRunsLemmas

theorem pySplit_mem (s : List Char) :
    ∀ w ∈ pySplit s, w ≠ [] ∧ ∀ c ∈ w, isPySpace c = false := by
  intro w hw
  obtain ⟨h1, h2⟩ := splitRuns_mem _ s w hw
  refine ⟨h1, fun c hc => ?_⟩
  have := h2 c hc
  simpa using this

theorem pySplit_joinSep (ws : List (List Char))
    (h : ∀ w ∈ ws, w ≠ [] ∧ ∀ c ∈ w, isPySpace c = false) :
    pySplit (joinSep ' ' ws) = ws := by
  refine splitRuns_joinSep _ ' ' (by decide) ws ?_
  intro w hw
  obtain ⟨h1, h2⟩ := h w hw
  exact ⟨h1, fun c hc => by simp [h2 c hc]⟩

section SliceLemmas

theorem sliceList_flatten_aux (k : ℕ) (hk : 0 < k) :
    ∀ n, ∀ ws : List (List Char), ws.length ≤ n → (sliceList k ws).flatten = ws := by
  intro n
  induction n with
  | zero =>
    intro ws hws
    rw [List.length_eq_zero.mp (Nat.le_zero.mp hws)]
    simp [sliceList, sliceListGo]
  | succ n ih =>
    intro ws hws
    cases ws with
    | nil => simp [sliceList, sliceListGo]
    | cons x xs =>
      rw [sliceList_cons, List.flatten_cons]
      have hlen : (xs.drop (k - 1)).length ≤ n := by
        simp only [List.length_drop]
        simp at hws
        omega
      rw [ih _ hlen, List.cons_append, List.take_append_drop]

/-- The slices of the Python chunking loop concatenate back to the word list. -/
theorem sliceList_flatten (k : ℕ) (hk : 0 < k) (ws : List (List Char)) :
    (sliceList k ws).flatten = ws :=
  sliceList_flatten_aux k hk ws.length ws le_rfl

theorem sliceList_mem_aux (k : ℕ) :
    ∀ n, ∀ ws : List (List Char), ws.length ≤ n →
      ∀ s ∈ sliceList k ws, s ≠ [] ∧ s.length ≤ max k 1 := by
  intro n
  induction n with
  | zero =>
    intro ws hws
    rw [List.length_eq_zero.mp (Nat.le_zero.mp hws)]
    simp [sliceList, sliceListGo]
  | succ n ih =>
    intro ws hws s hs
    cases ws with
    | nil => simp [sliceList, sliceListGo] at hs
    | cons x xs =>
      rw [sliceList_cons] at hs
      rcases List.mem_cons.mp hs with h | h
      · subst h
        refine ⟨by simp, ?_⟩
        simp only [List.length_cons, List.length_take]
        omega
      · have hlen : (xs.drop (k - 1)).length ≤ n := by
          simp only [List.length_drop]
          simp at hws
          omega
        exact ih _ hlen s h

/-- Every slice produced by the chunking loop is non-empty and holds at most
`k` words (for `k ≥ 1`). -/
theorem sliceList_mem (k : ℕ) (hk : 0 < k) (ws : List (List Char)) :
    ∀ s ∈ sliceList k ws, s ≠ [] ∧ s.length ≤ k := by
  intro s hs
  obtain ⟨h1, h2⟩ := sliceList_mem_aux k ws.length ws le_rfl s hs
  exact ⟨h1, by omega⟩

theorem sliceList_ne_nil (k : ℕ) (ws : List (List Char)) (h : ws ≠ []) :
    sliceList k ws ≠ [] := by
  cases ws with
  | nil => exact absurd rfl h
  | cons x xs => rw [sliceList_cons]; simp

/-- Members of the slices of `ws` are members of `ws`. -/
theorem sliceList_mem_mem (k : ℕ) (hk : 0 < k) (ws : List (List Char))
    (s : List (List Char)) (hs : s ∈ sliceList k ws) (w : List Char) (hw : w ∈ s) :
    w ∈ ws := by
  have : w ∈ (sliceList k ws).flatten := List.mem_flatten.mpr ⟨s, hs, hw⟩
  rwa [sliceList_flatten k hk] at this

end SliceLemmas

/-- Joining a concatenation of two non-empty word lists distributes over `joinSep`. -/
theorem joinSep_append (sep : Char) :
    ∀ a b : List (List Char), a ≠ [] → b ≠ [] →
      joinSep sep (a ++ b) = joinSep sep a ++ sep :: joinSep sep b := by
  intro a
  induction a with
  | nil => intro b h _; exact absurd rfl h
  | cons w a ih =>
    intro b _ hb
    cases a with
    | nil =>
      cases b with
      | nil => exact absurd rfl hb
      | cons w2 b2 => simp [joinSep]
    | cons w2 a2 =>
      rw [List.cons_append, joinSep, ih b (by simp) hb]
      · simp [joinSep]
      · exact fun h => by simp at h

/-- Joining chunk strings (each already a `joinSep` of its words) equals joining
the underlying flat word list, provided each chunk is a non-empty word list. -/
theorem joinSep_map_joinSep (sep : Char) :
    ∀ L : List (List (List Char)), (∀ s ∈ L, s ≠ []) →
      joinSep sep (L.map (joinSep sep)) = joinSep sep L.flatten := by
  intro L
  induction L with
  | nil => intro _; simp [joinSep]
  | cons s L ih =>
    intro h
    cases L with
    | nil => simp [joinSep]
    | cons s2 L2 =>
      have hs : s ≠ [] := h s (by simp)
      have hflat : (s2 :: L2).flatten ≠ [] := by
        have hs2 : s2 ≠ [] := h s2 (by simp)
        simp only [List.flatten_cons]
        intro hcontra
        exact hs2 (List.append_eq_nil.mp hcontra).1
      rw [List.map_cons, joinSep, List.flatten_cons]
      · rw [ih (fun x hx => h x (by simp [hx])), List.flatten_cons,
          joinSep_append sep s (s2 ++ L2.flatten) hs (by simpa using hflat)]
      · simp

/-- True when the word ends in `.`, `!` or `?` — Python `word.endswith(('.', '!', '?'))`. -/
def endsTerminal (w : List Char) : Bool :=
  match w.getLast? with
  | some c => c == '.' || c == '!' || c == '?'
  | none => false

/-- Loop body of the inline chunker of `audio_processing.analyze_voiceover_timing`
(lines 108-123): accumulate words into `current_chunk`; flush when the running
`word_count` reaches 5 or the word ends in terminal punctuation; flush the
remaining words at the end.  Chunks are kept as word lists. -/
def chunkWordsAux : List (List Char) → List (List Char) → ℕ → List (List (List Char))
  | [], current_chunk, _ =>
    if current_chunk = [] then [] else [current_chunk]
  | w :: ws, current_chunk, word_count =>
    if word_count + 1 == 5 || endsTerminal w then
      (current_chunk ++ [w]) :: chunkWordsAux ws [] 0
    else
      chunkWordsAux ws (current_chunk ++ [w]) (word_count + 1)

/-- The inline "5 words or terminal punctuation" chunker of
`analyze_voiceover_timing`, applied to `words = text.split()`. -/
def chunkWords (words : List (List Char)) : List (List (List Char)) :=
  chunkWordsAux words [] 0

/-- Embedding of `visual_processing.estimate_sentence_duration` (lines 212-230):
`words = re.findall(r'\w+', sentence)`, `duration = max(word_count / words_per_second, 2.0)`.
Exact-rational model of the float computation; Python raises `ZeroDivisionError`
when `words_per_second = 0`, so theorems assume a positive rate. -/
def estimate_sentence_duration (sentence : List Char) (words_per_second : ℚ) : ℚ :=
  max (((wordTokens sentence).length : ℚ) / words_per_second) 2

/-- One timed segment of the narration timeline
(`{'text': ..., 'start': ..., 'end': ..., 'duration': ...}` in the source;
the `end` field is called `stop` here because `end` is reserved in Lean). -/
structure TimingSeg where
  text : List Char
  start : ℚ
  stop : ℚ
  duration : ℚ
deriving DecidableEq, Repr

instance : Inhabited TimingSeg := ⟨⟨[], 0, 0, 0⟩⟩

/-- Embedding of `audio_processing.analyze_voiceover_timing` (lines 58-154).

Inputs: the detected non-silent ranges in milliseconds (what
`pydub.silence.detect_nonsilence` returned for the audio), the narration text,
and the measured total audio duration in seconds (`audio.duration_seconds`).
Divisions that would raise `ZeroDivisionError` in Python are modelled as
explicit error returns. -/
def analyze_voiceover_timing (ranges_ms : List (ℕ × ℕ)) (text : List Char)
    (total_duration : ℚ) : Except PyErr (List TimingSeg) :=
  let non_silent : List (ℚ × ℚ) := ranges_ms.map (fun r => ((r.1 : ℚ) / 1000, (r.2 : ℚ) / 1000))
  let words := pySplit text
  if (non_silent.length : ℚ) < (words.length : ℚ) / 2 then
    -- Fallback: divide the audio duration by the number of chunks
    let chunks := split_text_into_word_chunks text 5
    if chunks.length = 0 then Except.error PyErr.zeroDivisionError
    else
      let segment_duration := total_duration / (chunks.length : ℚ)
      Except.ok <| (List.range chunks.length).map fun i =>
        { text := chunks.getD i []
          start := (i : ℚ) * segment_duration
          stop := ((i : ℚ) + 1) * segment_duration
          duration := segment_duration }
  else
    -- Mapped strategy: map word chunks to detected audio segments
    let chunks := chunkWords words
    let chunk_count := chunks.length
    let audio_segment_count := non_silent.length
    if chunk_count ≤ audio_segment_count then
      Except.ok <| (List.range chunk_count).map fun i =>
        let t := non_silent.getD i (0, 0)
        { text := joinSep ' ' (chunks.getD i [])
          start := t.1
          stop := t.2
          duration := t.2 - t.1 }
    else if audio_segment_count = 0 then Except.error PyErr.zeroDivisionError
    else
      let ratio : ℚ := (chunk_count : ℚ) / (audio_segment_count : ℚ)
      Except.ok <| (List.range chunk_count).map fun (i : ℕ) =>
        let audio_idx := Int.toNat ⌊(i : ℚ) / ratio⌋
        let idx := min audio_idx (audio_segment_count - 1)
        let t := non_silent.getD idx (0, 0)
        { text := joinSep ' ' (chunks.getD i [])
          start := t.1
          stop := t.2
          duration := t.2 - t.1 }

/-- Timing part of `visual_processing.create_dynamic_text_clips` (lines 269-325):
each clip gets `set_start(current_time)` and `set_duration(duration)`, and
`current_time` accumulates the durations.  Input: `(text, duration)` pairs from
`sentence_data`; output: `(text, start, duration)` triples. -/
def create_dynamic_text_clips_from (cur : ℚ) :
    List (List Char × ℚ) → List (List Char × ℚ × ℚ)
  | [] => []
  | (t, d) :: rest => (t, cur, d) :: create_dynamic_text_clips_from (cur + d) rest

/-- The clip list built by `create_dynamic_text_clips`, starting at `current_time = 0`. -/
def create_dynamic_text_clips (sentence_data : List (List Char × ℚ)) :
    List (List Char × ℚ × ℚ) :=
  create_dynamic_text_clips_from 0 sentence_data

/-- A JSON value as decoded by `response.json()` in `fact_retrieval.get_fact`. -/
inductive Json where
  | str (s : String)
  | num (n : ℤ)
  | arr (elems : List Json)
  | obj (entries : List (String × Json))

/-- Outcome of the `requests.get(api_url)` call and JSON decoding in `get_fact`:
the request may raise (`requests.RequestException`, including bad status), the
body may fail to decode as JSON (`json.JSONDecodeError`, caught and treated as
plain text), or it decodes to a JSON value. -/
inductive FetchOutcome where
  | requestError
  | plainText (body : String)
  | jsonBody (v : Json)

/-- What `get_fact` hands back on success: a plain string fact, a value pulled
out of a JSON object (`data[key]`, which need not be a string), or the Python
`str(data)` of a non-string non-dict value (kept symbolically). -/
inductive FactResult where
  | text (s : String)
  | value (v : Json)
  | stringified (v : Json)

/-- The keys probed in order by `get_fact` on a JSON object response. -/
def knownKeys : List String := ["text", "fact", "content", "value", "message"]

/-- The five hard-coded fallback facts of `fact_retrieval.get_fact` (lines 72-78). -/
def fallback_facts : List String :=
  ["The shortest war in history was between Britain and Zanzibar in 1896, lasting only 38 minutes.",
   "Honey never spoils. Archaeologists have found pots of honey in ancient Egyptian tombs that are over 3,000 years old and still perfectly good to eat.",
   "The world's oldest known living tree is a Great Basin bristlecone pine named Methuselah, estimated to be over 4,800 years old.",
   "A day on Venus is longer than a year on Venus. It takes 243 Earth days for Venus to rotate once on its axis, but only 225 Earth days to orbit the Sun.",
   "The average person will spend six months of their life waiting for red lights to turn green.",]

/-- Embedding of `fact_retrieval.get_fact` (lines 19-79), with AI expansion
disabled (`config = None`, as in `main.py`).  `choice` models the index picked
by `random.choice` among the fallback facts.  The outer `except` clause catches
only `requests.RequestException` and `json.JSONDecodeError`; the `IndexError`
raised by `list(data.values())[0]` on an empty JSON object is not caught. -/
def get_fact (outcome : FetchOutcome) (choice : Fin 5) : Except PyErr FactResult :=
  match outcome with
  | .requestError => Except.ok (.text (fallback_facts.getD choice.val ""))
  | .plainText body => Except.ok (.text body)
  | .jsonBody v =>
    match v with
    | .str s => Except.ok (.text s)
    | .obj entries =>
      match knownKeys.findSome? (fun k => entries.lookup k) with
      | some val => Except.ok (.value val)
      | none =>
        match entries with
        | [] => Except.error PyErr.indexError
        | (_, val) :: _ => Except.ok (.value val)
    | other => Except.ok (.stringified other)

/-- One entry of `sentence_data` consumed by `assemble_multi_background_video`:
`{'text': ..., 'keywords': ..., 'duration': ...}`. -/
structure SegmentData where
  text : List Char
  keywords : List String
  duration : ℚ
deriving DecidableEq, Repr

instance : Inhabited SegmentData := ⟨⟨[], [], 0⟩⟩

/-- A background clip as assembled per segment: either a downloaded video clip
or the `ColorClip(resolution, color=(40, 40, 40), duration=duration)` fallback. -/
inductive BgClip where
  | video (duration : ℚ)
  | color (duration : ℚ)
deriving DecidableEq, Repr

instance : Inhabited BgClip := ⟨.color 0⟩

/-- Duration of the clip returned by `video_assembly.preprocess_video_clip`
(lines 102-164): a longer clip is trimmed to `duration`, a shorter one is
looped and cut to `duration`, an exact-length one is left alone. -/
def preprocess_clip_duration (clip_duration duration : ℚ) : ℚ :=
  if clip_duration > duration then duration
  else if clip_duration < duration then duration
  else clip_duration

/-- Background-segment loop of `video_assembly.assemble_multi_background_video`
(lines 242-256): for each segment, try to download and preprocess a background
clip; on any exception, substitute a solid-color clip of the segment's duration
and continue.  `outcome i` abstracts the `try` body for segment `i`: `ok d`
means the download succeeded yielding a raw clip of duration `d`, `error`
means `download_background_clip` or `preprocess_video_clip` raised. -/
def assemble_background_segments (sentence_data : List SegmentData)
    (outcome : ℕ → Except Unit ℚ) : List BgClip :=
  sentence_data.enum.map fun p =>
    match outcome p.1 with
    | .ok raw => .video (preprocess_clip_duration raw p.2.duration)
    | .error _ => .color p.2.duration

/-- Result of one iteration of the source loop in
`video_assembly.download_background_clip`: the source yields a video and the
download succeeds, or the API answers with no results (`continue`), or an
exception is raised and caught (`continue`). -/
inductive SourceOutcome where
  | success
  | noResults
  | failure
deriving DecidableEq, Repr

/-- The `for source in video_sources` loop of `download_background_clip`
(lines 47-98): return the temp path on the first successful source, raise
`Exception("Failed to download any video from all available sources")` when
every source is exhausted. -/
def trySourcesLoop (temp_video_path : String) : List SourceOutcome → Except Unit String
  | [] => Except.error ()
  | SourceOutcome.success :: _ => Except.ok temp_video_path
  | _ :: rest => trySourcesLoop temp_video_path rest

/-- The configuration slice relevant to background resolution.  The spec's
`backgrounds_dir` contents are carried here as a list of file names; the code
of `download_background_clip` never consults it. -/
structure ResolverConfig where
  localBackgroundFiles : List String
deriving DecidableEq, Repr

/-- Embedding of `video_assembly.download_background_clip` (lines 17-98):
build the query from the first three keywords (or `"nature"`), build the temp
file name `background_{index}.mp4`, then try the configured sources in order.
`attempts` abstracts the remote world: the per-source outcomes for a query. -/
def download_background_clip (keywords : List String) (config : ResolverConfig)
    (attempts : String → List SourceOutcome) (index : ℕ) : Except Unit String :=
  let query := if keywords.isEmpty then "nature" else String.intercalate "+" (keywords.take 3)
  let temp_video_path := "background_" ++ toString index ++ ".mp4"
  trySourcesLoop temp_video_path (attempts query)

/-- Embedding of `visual_processing.select_background` (lines 30-43): a plain
wrapper around `download_background_clip` (with a fresh temp dir and index 0). -/
def select_background (keywords : List String) (config : ResolverConfig)
    (attempts : String → List SourceOutcome) : Except Unit String :=
  download_background_clip keywords config attempts 0

/-- Modelled from the spec (section 4.1, word-chunk split): accumulate words
until either the configured maximum chunk size `k` is reached or the current
word ends in a terminal punctuation mark, whichever comes first; flush the
remaining words at sentence end regardless of size.  Stated to compare the
spec's rule with the code's chunkers. -/
def specChunkBySizeOrPunctAux (k : ℕ) :
    List (List Char) → List (List Char) → ℕ → List (List (List Char))
  | [], cur, _ => if cur = [] then [] else [cur]
  | w :: ws, cur, n =>
    if n + 1 == k || endsTerminal w then
      (cur ++ [w]) :: specChunkBySizeOrPunctAux k ws [] 0
    else
      specChunkBySizeOrPunctAux k ws (cur ++ [w]) (n + 1)

/-- The spec's size-or-punctuation chunk rule at maximum chunk size `k`. -/
def specChunkBySizeOrPunct (k : ℕ) (words : List (List Char)) :
    List (List (List Char)) :=
  specChunkBySizeOrPunctAux k words [] 0

theorem chunkWordsAux_eq_spec (words : List (List Char)) :
    ∀ cur n, chunkWordsAux words cur n = specChunkBySizeOrPunctAux 5 words cur n := by
  induction words with
  | nil => intro cur n; rfl
  | cons w ws ih =>
    intro cur n
    rw [chunkWordsAux, specChunkBySizeOrPunctAux]
    by_cases h : (n + 1 == 5 || endsTerminal w) = true
    · rw [if_pos h, if_pos h, ih]
    · rw [if_neg h, if_neg h, ih]

/-- Chunks of `split_text_into_word_chunks`, read back as word lists, are
exactly the consecutive `k`-word slices of the text's word list. -/
theorem split_chunks_words (text : List Char) (k : ℕ) (hk : 0 < k) :
    (split_text_into_word_chunks text k).map pySplit = sliceList k (pySplit text) := by
  unfold split_text_into_word_chunks
  rw [List.map_map]
  have : ∀ s ∈ sliceList k (pySplit text), (pySplit ∘ joinSep ' ') s = id s := by
    intro s hs
    have hmem : ∀ w ∈ s, w ≠ [] ∧ ∀ c ∈ w, isPySpace c = false := fun w hw =>
      pySplit_mem text w (sliceList_mem_mem k hk (pySplit text) s hs w hw)
    simpa using pySplit_joinSep s hmem
  rw [List.map_congr_left this, List.map_id]

/-- C6: for every text, joining the chunks produced by
`split_text_into_word_chunks` in order with single spaces and splitting on
whitespace yields exactly the word sequence of the original text: no word
dropped, none duplicated, order preserved. -/
theorem C6_chunk_join_roundtrip (text : List Char) (k : ℕ) (hk : 0 < k) :
    pySplit (joinSep ' ' (split_text_into_word_chunks text k)) = pySplit text := by
  unfold split_text_into_word_chunks
  rw [joinSep_map_joinSep ' ' _ (fun s hs => (sliceList_mem k hk (pySplit text) s hs).1),
    sliceList_flatten k hk]
  exact pySplit_joinSep (pySplit text) (pySplit_mem text)

/-- Witness for C6 at text "honey never spoils today ok" and the default chunk size 5. -/
theorem C6_chunk_join_roundtrip_witness :
    pySplit (joinSep ' ' (split_text_into_word_chunks
        ("honey never spoils today ok").toList 5)) =
      pySplit ("honey never spoils today ok").toList :=
  C6_chunk_join_roundtrip ("honey never spoils today ok").toList 5 (by norm_num)

/-- C5 counterexample: with maximum chunk size 2 and the sentence
"one. two three", `split_text_into_word_chunks` keeps "one." and "two" in one
chunk even though "one." ends in a terminal punctuation mark, so it does not
flush on terminal punctuation as the claim states; the spec's
size-or-punctuation rule would flush after "one.". -/
theorem C5_counterexample :
    split_text_into_word_chunks ("one. two three").toList 2 =
      [("one. two").toList, ("three").toList] ∧
    (specChunkBySizeOrPunct 2 (pySplit ("one. two three").toList)).map (joinSep ' ') =
      [("one.").toList, ("two three").toList] ∧
    ([("one. two").toList, ("three").toList] : List (List Char)) ≠
      [("one.").toList, ("two three").toList] := by
  refine ⟨by decide, by decide, by decide⟩

/-- C5 (amended): `split_text_into_word_chunks` flushes exactly when the
maximum chunk size is reached, ignoring punctuation — each produced chunk is a
consecutive slice of the word sequence (never splitting a word), no chunk is
empty, every chunk holds at most `k` words and the final chunk is flushed even
if short; the size-or-terminal-punctuation flush rule of the spec is
implemented only by the inline chunker of `analyze_voiceover_timing`, with the
chunk size fixed at 5. -/
theorem C5_word_chunk_split (text : List Char) (k : ℕ) (hk : 0 < k) :
    (split_text_into_word_chunks text k).map pySplit = sliceList k (pySplit text) ∧
    (∀ c ∈ split_text_into_word_chunks text k, pySplit c ≠ [] ∧ (pySplit c).length ≤ k) ∧
    chunkWords (pySplit text) = specChunkBySizeOrPunct 5 (pySplit text) := by
  refine ⟨split_chunks_words text k hk, ?_, chunkWordsAux_eq_spec (pySplit text) [] 0⟩
  intro c hc
  unfold split_text_into_word_chunks at hc
  obtain ⟨s, hs, rfl⟩ := List.mem_map.mp hc
  have hmem : ∀ w ∈ s, w ≠ [] ∧ ∀ c ∈ w, isPySpace c = false := fun w hw =>
    pySplit_mem text w (sliceList_mem_mem k hk (pySplit text) s hs w hw)
  rw [pySplit_joinSep s hmem]
  exact (sliceList_mem k hk (pySplit text) s hs).imp id (fun h => h)

/-- Witness for C5 at text "a b c" and chunk size 2. -/
theorem C5_word_chunk_split_witness :
    (split_text_into_word_chunks ("a b c").toList 2).map pySplit =
        sliceList 2 (pySplit ("a b c").toList) ∧
      (∀ c ∈ split_text_into_word_chunks ("a b c").toList 2,
        pySplit c ≠ [] ∧ (pySplit c).length ≤ 2) ∧
      chunkWords (pySplit ("a b c").toList) =
        specChunkBySizeOrPunct 5 (pySplit ("a b c").toList) :=
  C5_word_chunk_split ("a b c").toList 2 (by norm_num)

/-- C4 counterexample: the word counter of `estimate_sentence_duration` is
`re.findall(r'\w+', ...)`, which splits "don't" at the apostrophe into two
tokens; at rate 1/4 words per second the function returns 8 seconds where the
claim's one-word reading of "don't" would give `max(1 / (1/4), 2.0) = 4`. -/
theorem C4_counterexample :
    (wordTokens ("don't").toList).length = 2 ∧
    estimate_sentence_duration ("don't").toList (1 / 4) = 8 ∧
    max ((1 : ℚ) / (1 / 4)) 2 = 4 ∧
    (8 : ℚ) ≠ 4 := by
  refine ⟨by decide, ?_, by norm_num, by norm_num⟩
  show max (((wordTokens ("don't").toList).length : ℚ) / (1 / 4)) 2 = 8
  rw [show (wordTokens ("don't").toList).length = 2 from by decide]
  norm_num

/-- C4 (amended): for every sentence and positive rate,
`estimate_sentence_duration` returns `max(word_count / words_per_second, 2.0)`
where the word count is the number of `\w+` runs — punctuation is stripped,
repeated whitespace yields no empty tokens, but "don't" counts as two words
(the apostrophe is not a word character); the function is deterministic and,
at fixed rate, a sentence with at least as many word tokens never gets a
shorter estimate. -/
theorem C4_duration_estimator (sentence other : List Char) (wps : ℚ) (hw : 0 < wps)
    (hlen : (wordTokens sentence).length ≤ (wordTokens other).length) :
    estimate_sentence_duration sentence wps =
      max (((wordTokens sentence).length : ℚ) / wps) 2 ∧
    (∀ t ∈ wordTokens sentence, t ≠ [] ∧ ∀ c ∈ t, isWordChar c = true) ∧
    estimate_sentence_duration sentence wps ≤ estimate_sentence_duration other wps := by
  refine ⟨rfl, splitRuns_mem _ sentence, ?_⟩
  unfold estimate_sentence_duration
  refine max_le_max ?_ le_rfl
  exact (div_le_div_right hw).mpr (by exact_mod_cast hlen)

/-- Witness for C4: "hi there" against the longer "hi there you two" at rate 1. -/
theorem C4_duration_estimator_witness :
    estimate_sentence_duration ("hi there").toList 1 =
      max (((wordTokens ("hi there").toList).length : ℚ) / 1) 2 ∧
    (∀ t ∈ wordTokens ("hi there").toList, t ≠ [] ∧ ∀ c ∈ t, isWordChar c = true) ∧
    estimate_sentence_duration ("hi there").toList 1 ≤
      estimate_sentence_duration ("hi there you two").toList 1 :=
  C4_duration_estimator ("hi there").toList ("hi there you two").toList 1
    (by norm_num) (by decide)

/-- The strategy condition `len(non_silent_ranges) < len(words) / 2` of
`analyze_voiceover_timing`, rephrased over naturals. -/
theorem analyze_cond_iff (R W : ℕ) : ((R : ℚ) < (W : ℚ) / 2) ↔ 2 * R < W := by
  rw [lt_div_iff (by norm_num : (0 : ℚ) < 2)]
  constructor
  · intro h
    have h2 : ((2 * R : ℕ) : ℚ) < (W : ℚ) := by push_cast; linarith
    exact_mod_cast h2
  · intro h
    have h2 : ((2 * R : ℕ) : ℚ) < (W : ℚ) := by exact_mod_cast h
    push_cast at h2; linarith

theorem getD_range_map {β : Type} [Inhabited β] (n i : ℕ) (f : ℕ → β) (h : i < n) :
    ((List.range n).map f).getD i default = f i := by
  rw [List.getD_eq_getElem?_getD, List.getElem?_map, List.getElem?_range h]
  rfl

/-- On the sparse-evidence condition, `analyze_voiceover_timing` returns the
uniform division of the total duration over the default 5-word chunks. -/
theorem analyze_fallback_eq (ranges_ms : List (ℕ × ℕ)) (text : List Char) (total : ℚ)
    (h : 2 * ranges_ms.length < (pySplit text).length) :
    analyze_voiceover_timing ranges_ms text total =
      Except.ok ((List.range (split_text_into_word_chunks text 5).length).map fun i =>
        { text := (split_text_into_word_chunks text 5).getD i []
          start := (i : ℚ) * (total / ((split_text_into_word_chunks text 5).length : ℚ))
          stop := ((i : ℚ) + 1) * (total / ((split_text_into_word_chunks text 5).length : ℚ))
          duration := total / ((split_text_into_word_chunks text 5).length : ℚ) }) := by
  have hW : pySplit text ≠ [] := by
    intro hnil
    rw [hnil] at h
    simp at h
  have hchunks : (split_text_into_word_chunks text 5).length ≠ 0 := by
    unfold split_text_into_word_chunks
    simp only [List.length_map, ne_eq, List.length_eq_zero]
    exact sliceList_ne_nil 5 (pySplit text) hW
  simp only [analyze_voiceover_timing, List.length_map]
  rw [if_pos ((analyze_cond_iff ranges_ms.length (pySplit text).length).mpr h),
    if_neg hchunks]

/-- In the mapped strategy with at least as many detected intervals as chunks,
`analyze_voiceover_timing` maps chunk `i` to interval `i`. -/
theorem analyze_mapped_oneone_eq (ranges_ms : List (ℕ × ℕ)) (text : List Char) (total : ℚ)
    (h : (pySplit text).length ≤ 2 * ranges_ms.length)
    (hle : (chunkWords (pySplit text)).length ≤ ranges_ms.length) :
    analyze_voiceover_timing ranges_ms text total =
      Except.ok ((List.range (chunkWords (pySplit text)).length).map fun i =>
        let t := (ranges_ms.map (fun r => ((r.1 : ℚ) / 1000, (r.2 : ℚ) / 1000))).getD i (0, 0)
        { text := joinSep ' ' ((chunkWords (pySplit text)).getD i [])
          start := t.1
          stop := t.2
          duration := t.2 - t.1 }) := by
  have hcond : ¬ ((ranges_ms.length : ℚ) < ((pySplit text).length : ℚ) / 2) := fun hc =>
    absurd ((analyze_cond_iff ranges_ms.length (pySplit text).length).mp hc) (by omega)
  simp only [analyze_voiceover_timing, List.length_map]
  rw [if_neg hcond, if_pos hle]

/-- In the mapped strategy with more chunks than detected intervals,
`analyze_voiceover_timing` maps chunk `i` to interval
`min (i * interval_count / chunk_count) (interval_count - 1)`:
`int(i / ratio)` with `ratio = chunk_count / interval_count` equals the natural
floor division `i * interval_count / chunk_count`. -/
theorem analyze_mapped_ratio_eq (ranges_ms : List (ℕ × ℕ)) (text : List Char) (total : ℚ)
    (h : (pySplit text).length ≤ 2 * ranges_ms.length)
    (hgt : ranges_ms.length < (chunkWords (pySplit text)).length) :
    analyze_voiceover_timing ranges_ms text total =
      Except.ok ((List.range (chunkWords (pySplit text)).length).map fun (i : ℕ) =>
        let idx := min (i * ranges_ms.length / (chunkWords (pySplit text)).length)
          (ranges_ms.length - 1)
        let t := (ranges_ms.map (fun r => ((r.1 : ℚ) / 1000, (r.2 : ℚ) / 1000))).getD idx (0, 0)
        { text := joinSep ' ' ((chunkWords (pySplit text)).getD i [])
          start := t.1
          stop := t.2
          duration := t.2 - t.1 }) := by
  have hR : ranges_ms.length ≠ 0 := by
    intro h0
    rw [h0] at h
    have hnil : pySplit text = [] := List.length_eq_zero.mp (by omega)
    rw [hnil] at hgt
    simp [chunkWords, chunkWordsAux] at hgt
  have hcond : ¬ ((ranges_ms.length : ℚ) < ((pySplit text).length : ℚ) / 2) := fun hc =>
    absurd ((analyze_cond_iff ranges_ms.length (pySplit text).length).mp hc) (by omega)
  simp only [analyze_voiceover_timing, List.length_map]
  rw [if_neg hcond, if_neg (not_le.mpr hgt), if_neg hR]
  congr 1
  apply List.map_congr_left
  intro i _
  have hfloor : Int.toNat ⌊(i : ℚ) / (((chunkWords (pySplit text)).length : ℚ) /
      (ranges_ms.length : ℚ))⌋ = i * ranges_ms.length / (chunkWords (pySplit text)).length := by
    rw [div_div_eq_mul_div]
    have hx : (i : ℚ) * (ranges_ms.length : ℚ) = ((i * ranges_ms.length : ℕ) : ℚ) := by
      push_cast; ring
    rw [hx, Int.floor_toNat, Nat.floor_div_nat, Nat.floor_natCast]
  rw [hfloor]

theorem sum_map_const_range (n : ℕ) (d : ℚ) :
    ((List.range n).map (fun _ => d)).sum = n * d := by
  induction n with
  | zero => simp
  | succ n ih =>
    rw [List.range_succ, List.map_append, List.sum_append, ih]
    push_cast
    simp
    ring

theorem getD_map_lt {α β : Type} (l : List α) (f : α → β) (i : ℕ) (h : i < l.length)
    (d : α) (d' : β) : (l.map f).getD i d' = f (l.getD i d) := by
  rw [List.getD_eq_getElem?_getD, List.getElem?_map, List.getElem?_eq_getElem h,
    List.getD_eq_getElem?_getD, List.getElem?_eq_getElem h]
  rfl

theorem clips_from_length (data : List (List Char × ℚ)) :
    ∀ cur, (create_dynamic_text_clips_from cur data).length = data.length := by
  induction data with
  | nil => intro cur; rfl
  | cons p rest ih =>
    intro cur
    cases p with
    | mk t d => simp [create_dynamic_text_clips_from, ih]

theorem clips_from_head_start (data : List (List Char × ℚ)) (cur : ℚ) (h : data ≠ []) :
    ((create_dynamic_text_clips_from cur data).getD 0 default).2.1 = cur := by
  cases data with
  | nil => exact absurd rfl h
  | cons p rest => cases p with | mk t d => rfl

theorem clips_from_contig (data : List (List Char × ℚ)) :
    ∀ cur i, i + 1 < data.length →
      ((create_dynamic_text_clips_from cur data).getD i default).2.1 +
          ((create_dynamic_text_clips_from cur data).getD i default).2.2 =
        ((create_dynamic_text_clips_from cur data).getD (i + 1) default).2.1 := by
  induction data with
  | nil => intro cur i hi; simp at hi
  | cons p rest ih =>
    intro cur i hi
    cases p with
    | mk t d =>
      cases i with
      | zero =>
        show ((t, cur, d) : List Char × ℚ × ℚ).2.1 + ((t, cur, d) : List Char × ℚ × ℚ).2.2 =
          ((create_dynamic_text_clips_from (cur + d) rest).getD 0 default).2.1
        rw [clips_from_head_start rest (cur + d)
          (by simp at hi; exact List.length_pos.mp (by omega))]
      | succ i =>
        show ((create_dynamic_text_clips_from (cur + d) rest).getD i default).2.1 +
            ((create_dynamic_text_clips_from (cur + d) rest).getD i default).2.2 =
          ((create_dynamic_text_clips_from (cur + d) rest).getD (i + 1) default).2.1
        exact ih (cur + d) i (by simp at hi; omega)

theorem clips_from_last (data : List (List Char × ℚ)) :
    ∀ cur, data ≠ [] →
      ((create_dynamic_text_clips_from cur data).getD (data.length - 1) default).2.1 +
          ((create_dynamic_text_clips_from cur data).getD (data.length - 1) default).2.2 =
        cur + (data.map Prod.snd).sum := by
  induction data with
  | nil => intro cur h; exact absurd rfl h
  | cons p rest ih =>
    intro cur _
    cases p with
    | mk t d =>
      cases rest with
      | nil => simp [create_dynamic_text_clips_from]
      | cons q rest2 =>
        have hlen : ((t, d) :: q :: rest2).length - 1 = (q :: rest2).length - 1 + 1 := by
          simp
        rw [hlen]
        show ((create_dynamic_text_clips_from (cur + d) (q :: rest2)).getD
              ((q :: rest2).length - 1) default).2.1 +
            ((create_dynamic_text_clips_from (cur + d) (q :: rest2)).getD
              ((q :: rest2).length - 1) default).2.2 = _
        rw [ih (cur + d) (by simp)]
        simp
        ring

/-- C2: `analyze_voiceover_timing` takes the sparse-evidence fallback exactly
when the number of detected speech intervals is strictly less than half the
word count; in that branch it assigns chunk `i` of the default 5-word chunker
the contiguous slice `[i*d, (i+1)*d]` with `d = total_duration / chunk_count`,
so all slices have the same length `d` and sum to the total duration. -/
theorem C2_sparse_fallback (ranges_ms : List (ℕ × ℕ)) (text : List Char) (total : ℚ)
    (hfb : 2 * ranges_ms.length < (pySplit text).length) :
    ((ranges_ms.length : ℚ) < ((pySplit text).length : ℚ) / 2 ↔
      2 * ranges_ms.length < (pySplit text).length) ∧
    ∃ segs, analyze_voiceover_timing ranges_ms text total = Except.ok segs ∧
      segs.length = (split_text_into_word_chunks text 5).length ∧
      (∀ i < segs.length, segs.getD i default =
        { text := (split_text_into_word_chunks text 5).getD i []
          start := (i : ℚ) * (total / ((split_text_into_word_chunks text 5).length : ℚ))
          stop := ((i : ℚ) + 1) * (total / ((split_text_into_word_chunks text 5).length : ℚ))
          duration := total / ((split_text_into_word_chunks text 5).length : ℚ) }) ∧
      (segs.map TimingSeg.duration).sum = total := by
  refine ⟨analyze_cond_iff _ _, ?_⟩
  have hW : pySplit text ≠ [] := by
    intro hnil
    rw [hnil] at hfb
    simp at hfb
  have hn : (split_text_into_word_chunks text 5).length ≠ 0 := by
    unfold split_text_into_word_chunks
    simp only [List.length_map, ne_eq, List.length_eq_zero]
    exact sliceList_ne_nil 5 (pySplit text) hW
  refine ⟨_, analyze_fallback_eq ranges_ms text total hfb, by simp, ?_, ?_⟩
  · intro i hi
    simp only [List.length_map, List.length_range] at hi
    rw [getD_range_map _ i _ hi]
  · rw [List.map_map]
    have : (TimingSeg.duration ∘ fun i : ℕ =>
        ({ text := (split_text_into_word_chunks text 5).getD i []
           start := (i : ℚ) * (total / ((split_text_into_word_chunks text 5).length : ℚ))
           stop := ((i : ℚ) + 1) * (total / ((split_text_into_word_chunks text 5).length : ℚ))
           duration := total / ((split_text_into_word_chunks text 5).length : ℚ) } : TimingSeg)) =
        fun _ : ℕ => total / ((split_text_into_word_chunks text 5).length : ℚ) := rfl
    rw [this, sum_map_const_range]
    field_simp

/-- Witness for C2: 10 words against one detected interval (1 < 10/2). -/
theorem C2_sparse_fallback_witness :
    ((([((0 : ℕ), (1000 : ℕ))] : List (ℕ × ℕ)).length : ℚ) <
        ((pySplit ("a b c d e f g h i j").toList).length : ℚ) / 2 ↔
      2 * ([((0 : ℕ), (1000 : ℕ))] : List (ℕ × ℕ)).length <
        (pySplit ("a b c d e f g h i j").toList).length) ∧
    ∃ segs, analyze_voiceover_timing [(0, 1000)] ("a b c d e f g h i j").toList 10 =
        Except.ok segs ∧
      segs.length = (split_text_into_word_chunks ("a b c d e f g h i j").toList 5).length ∧
      (∀ i < segs.length, segs.getD i default =
        { text := (split_text_into_word_chunks ("a b c d e f g h i j").toList 5).getD i []
          start := (i : ℚ) *
            (10 / ((split_text_into_word_chunks ("a b c d e f g h i j").toList 5).length : ℚ))
          stop := ((i : ℚ) + 1) *
            (10 / ((split_text_into_word_chunks ("a b c d e f g h i j").toList 5).length : ℚ))
          duration :=
            10 / ((split_text_into_word_chunks ("a b c d e f g h i j").toList 5).length : ℚ) }) ∧
      (segs.map TimingSeg.duration).sum = 10 :=
  C2_sparse_fallback [(0, 1000)] ("a b c d e f g h i j").toList 10 (by decide)

/-- C1 counterexample: six words with three detected intervals take the
mapped-strategy branch; the two produced segments copy the detected interval
bounds (0.5,1) and (1.5,2), so the first segment does not start at 0, the
first segment's end (1) differs from the second's start (3/2), the last
segment's end (2) differs from the total duration (3), and the durations sum
to 1, not 3. -/
theorem C1_counterexample :
    analyze_voiceover_timing [(500, 1000), (1500, 2000), (2500, 3000)]
        ("a b c d e f").toList 3 =
      Except.ok [{ text := ("a b c d e").toList, start := 1/2, stop := 1, duration := 1/2 },
        { text := ("f").toList, start := 3/2, stop := 2, duration := 1/2 }] ∧
    ((1 : ℚ)/2 ≠ 0) ∧ ((1 : ℚ) ≠ 3/2) ∧ ((2 : ℚ) ≠ 3) ∧ ((1 : ℚ)/2 + 1/2 ≠ 3) := by
  refine ⟨?_, by norm_num, by norm_num, by norm_num, by norm_num⟩
  rw [analyze_mapped_oneone_eq _ _ _ (by decide) (by decide)]
  rw [show (chunkWords (pySplit ("a b c d e f").toList)).length = 2 from by decide]
  rw [show List.range 2 = [0, 1] from by decide]
  simp only [List.map_cons, List.map_nil]
  simp only [TimingSeg.mk.injEq, List.getD]
  norm_num
  decide

/-- C1 (amended): the Timeline-Builder post-condition — segments contiguous,
first start 0, last end equal to the total narration duration, durations
summing to the total — holds on the sparse-evidence fallback branch of
`analyze_voiceover_timing` (exactly, in exact arithmetic) and on the
estimate-only path of `create_dynamic_text_clips` (clips are contiguous from 0
and the last clip ends at the summed durations).  It does not hold in the
mapped-strategy branch, where each segment's bounds are copied from its mapped
detected non-silent interval (see the counterexample). -/
theorem C1_timeline_postcondition (ranges_ms : List (ℕ × ℕ)) (text : List Char)
    (total : ℚ) (data : List (List Char × ℚ)) :
    (2 * ranges_ms.length < (pySplit text).length →
      ∃ segs, analyze_voiceover_timing ranges_ms text total = Except.ok segs ∧
        segs ≠ [] ∧
        (segs.getD 0 default).start = 0 ∧
        (∀ i, i + 1 < segs.length →
          (segs.getD i default).stop = (segs.getD (i + 1) default).start) ∧
        (segs.getD (segs.length - 1) default).stop = total ∧
        (segs.map TimingSeg.duration).sum = total) ∧
    ((create_dynamic_text_clips data).length = data.length ∧
      (data ≠ [] → ((create_dynamic_text_clips data).getD 0 default).2.1 = 0) ∧
      (∀ i, i + 1 < data.length →
        ((create_dynamic_text_clips data).getD i default).2.1 +
            ((create_dynamic_text_clips data).getD i default).2.2 =
          ((create_dynamic_text_clips data).getD (i + 1) default).2.1) ∧
      (data ≠ [] →
        ((create_dynamic_text_clips data).getD (data.length - 1) default).2.1 +
            ((create_dynamic_text_clips data).getD (data.length - 1) default).2.2 =
          (data.map Prod.snd).sum)) := by
  constructor
  · intro hfb
    have hW : pySplit text ≠ [] := by
      intro hnil
      rw [hnil] at hfb
      simp at hfb
    have hn : (split_text_into_word_chunks text 5).length ≠ 0 := by
      unfold split_text_into_word_chunks
      simp only [List.length_map, ne_eq, List.length_eq_zero]
      exact sliceList_ne_nil 5 (pySplit text) hW
    have hnQ : ((split_text_into_word_chunks text 5).length : ℚ) ≠ 0 := by
      exact_mod_cast hn
    refine ⟨_, analyze_fallback_eq ranges_ms text total hfb, ?_, ?_, ?_, ?_, ?_⟩
    · simp only [ne_eq, List.map_eq_nil, List.range_eq_nil]
      exact hn
    · rw [getD_range_map _ 0 _ (Nat.pos_of_ne_zero hn)]
      simp
    · intro i hi
      simp only [List.length_map, List.length_range] at hi
      rw [getD_range_map _ i _ (by omega), getD_range_map _ (i + 1) _ (by omega)]
      show ((i : ℚ) + 1) * _ = ((i + 1 : ℕ) : ℚ) * _
      push_cast
      ring
    · simp only [List.length_map, List.length_range]
      rw [getD_range_map _ ((split_text_into_word_chunks text 5).length - 1) _
        (by omega)]
      show (((((split_text_into_word_chunks text 5).length - 1 : ℕ)) : ℚ) + 1) *
        (total / ((split_text_into_word_chunks text 5).length : ℚ)) = total
      rw [Nat.cast_sub (Nat.one_le_iff_ne_zero.mpr hn)]
      field_simp
    · rw [List.map_map]
      have heq : (TimingSeg.duration ∘ fun i : ℕ =>
          ({ text := (split_text_into_word_chunks text 5).getD i []
             start := (i : ℚ) * (total / ((split_text_into_word_chunks text 5).length : ℚ))
             stop := ((i : ℚ) + 1) * (total / ((split_text_into_word_chunks text 5).length : ℚ))
             duration := total / ((split_text_into_word_chunks text 5).length : ℚ) } : TimingSeg)) =
          fun _ : ℕ => total / ((split_text_into_word_chunks text 5).length : ℚ) := rfl
      rw [heq, sum_map_const_range]
      field_simp
  · refine ⟨clips_from_length data 0, fun h => clips_from_head_start data 0 h, ?_, fun h => ?_⟩
    · intro i hi
      exact clips_from_contig data 0 i hi
    · rw [show create_dynamic_text_clips data = create_dynamic_text_clips_from 0 data from rfl,
        clips_from_last data 0 h]
      ring

/-- Witness for C1: fallback input (10 words, one interval, total 10 s) and a
two-entry estimate-only clip list. -/
theorem C1_timeline_postcondition_witness :
    (∃ segs, analyze_voiceover_timing [(0, 1000)] ("a b c d e f g h i j").toList 10 =
        Except.ok segs ∧
      segs ≠ [] ∧
      (segs.getD 0 default).start = 0 ∧
      (∀ i, i + 1 < segs.length →
        (segs.getD i default).stop = (segs.getD (i + 1) default).start) ∧
      (segs.getD (segs.length - 1) default).stop = 10 ∧
      (segs.map TimingSeg.duration).sum = 10) ∧
    ((create_dynamic_text_clips [(("hi").toList, (2 : ℚ)), (("yo").toList, 3)]).getD 0
        default).2.1 = 0 ∧
    ((create_dynamic_text_clips [(("hi").toList, (2 : ℚ)), (("yo").toList, 3)]).getD
          (([(("hi").toList, (2 : ℚ)), (("yo").toList, 3)] : List (List Char × ℚ)).length - 1)
          default).2.1 +
        ((create_dynamic_text_clips [(("hi").toList, (2 : ℚ)), (("yo").toList, 3)]).getD
          (([(("hi").toList, (2 : ℚ)), (("yo").toList, 3)] : List (List Char × ℚ)).length - 1)
          default).2.2 =
      (([(("hi").toList, (2 : ℚ)), (("yo").toList, 3)] : List (List Char × ℚ)).map
        Prod.snd).sum :=
  ⟨(C1_timeline_postcondition [(0, 1000)] ("a b c d e f g h i j").toList 10
      [(("hi").toList, (2 : ℚ)), (("yo").toList, 3)]).1 (by decide),
   (C1_timeline_postcondition [(0, 1000)] ("a b c d e f g h i j").toList 10
      [(("hi").toList, (2 : ℚ)), (("yo").toList, 3)]).2.2.1 (List.cons_ne_nil _ _),
   (C1_timeline_postcondition [(0, 1000)] ("a b c d e f g h i j").toList 10
      [(("hi").toList, (2 : ℚ)), (("yo").toList, 3)]).2.2.2.2 (List.cons_ne_nil _ _)⟩

/-- C3 counterexample: text "a. b. c." yields 3 chunks, 2 detected intervals
(0,1) and (2,3) seconds, taking the mapped branch with more chunks than
intervals.  The code computes `int(i / (chunk_count / interval_count))`, so
chunk 1 gets interval `int(1 / 1.5) = 0`, i.e. (0,1); the claim's formula
`min(floor(1 * 3 / 2), 1) = 1` would give interval (2,3). -/
theorem C3_counterexample :
    analyze_voiceover_timing [(0, 1000), (2000, 3000)] ("a. b. c.").toList 3 =
      Except.ok [{ text := ("a.").toList, start := 0, stop := 1, duration := 1 },
        { text := ("b.").toList, start := 0, stop := 1, duration := 1 },
        { text := ("c.").toList, start := 2, stop := 3, duration := 1 }] ∧
    min (Int.toNat ⌊(1 * 3 : ℚ) / 2⌋) (2 - 1) = 1 ∧
    ((0 : ℚ) ≠ 2) := by
  refine ⟨?_, by norm_num, by norm_num⟩
  rw [analyze_mapped_ratio_eq _ _ _ (by decide) (by decide)]
  rw [show (chunkWords (pySplit ("a. b. c.").toList)).length = 3 from by decide]
  rw [show List.range 3 = [0, 1, 2] from by decide]
  simp only [List.map_cons, List.map_nil]
  simp only [TimingSeg.mk.injEq, List.getD]
  norm_num
  decide

/-- C3 (amended): in the mapped-strategy branch with more chunks than detected
intervals, chunk `i` is assigned the interval with index
`min(floor(i * interval_count / chunk_count), interval_count - 1)` — the ratio
divides `i` by `chunk_count / interval_count`, not `i * chunk_count` by
`interval_count` as the claim stated. -/
theorem C3_mapped_ratio_indexing (ranges_ms : List (ℕ × ℕ)) (text : List Char) (total : ℚ)
    (h : (pySplit text).length ≤ 2 * ranges_ms.length)
    (hgt : ranges_ms.length < (chunkWords (pySplit text)).length) :
    ∃ segs, analyze_voiceover_timing ranges_ms text total = Except.ok segs ∧
      segs.length = (chunkWords (pySplit text)).length ∧
      ∀ i < (chunkWords (pySplit text)).length,
        (segs.getD i default).start =
          ((ranges_ms.getD (min (i * ranges_ms.length / (chunkWords (pySplit text)).length)
            (ranges_ms.length - 1)) (0, 0)).1 : ℚ) / 1000 ∧
        (segs.getD i default).stop =
          ((ranges_ms.getD (min (i * ranges_ms.length / (chunkWords (pySplit text)).length)
            (ranges_ms.length - 1)) (0, 0)).2 : ℚ) / 1000 := by
  have hR : ranges_ms.length ≠ 0 := by
    intro h0
    rw [h0] at h
    have hnil : pySplit text = [] := List.length_eq_zero.mp (by omega)
    rw [hnil] at hgt
    simp [chunkWords, chunkWordsAux] at hgt
  refine ⟨_, analyze_mapped_ratio_eq ranges_ms text total h hgt, by simp, ?_⟩
  intro i hi
  rw [getD_range_map _ i _ hi]
  have hidx : min (i * ranges_ms.length / (chunkWords (pySplit text)).length)
      (ranges_ms.length - 1) < ranges_ms.length := by
    have : ranges_ms.length - 1 < ranges_ms.length := by omega
    omega
  simp only [getD_map_lt ranges_ms (fun r => ((r.1 : ℚ) / 1000, (r.2 : ℚ) / 1000)) _ hidx (0, 0)]
  exact ⟨trivial, trivial⟩

/-- Witness for C3 at the "a. b. c." input with two intervals. -/
theorem C3_mapped_ratio_indexing_witness :
    ∃ segs, analyze_voiceover_timing [(0, 1000), (2000, 3000)] ("a. b. c.").toList 3 =
        Except.ok segs ∧
      segs.length = (chunkWords (pySplit ("a. b. c.").toList)).length ∧
      ∀ i < (chunkWords (pySplit ("a. b. c.").toList)).length,
        (segs.getD i default).start =
          ((([((0 : ℕ), (1000 : ℕ)), (2000, 3000)] : List (ℕ × ℕ)).getD
            (min (i * ([((0 : ℕ), (1000 : ℕ)), (2000, 3000)] : List (ℕ × ℕ)).length /
                (chunkWords (pySplit ("a. b. c.").toList)).length)
              (([((0 : ℕ), (1000 : ℕ)), (2000, 3000)] : List (ℕ × ℕ)).length - 1))
            (0, 0)).1 : ℚ) / 1000 ∧
        (segs.getD i default).stop =
          ((([((0 : ℕ), (1000 : ℕ)), (2000, 3000)] : List (ℕ × ℕ)).getD
            (min (i * ([((0 : ℕ), (1000 : ℕ)), (2000, 3000)] : List (ℕ × ℕ)).length /
                (chunkWords (pySplit ("a. b. c.").toList)).length)
              (([((0 : ℕ), (1000 : ℕ)), (2000, 3000)] : List (ℕ × ℕ)).length - 1))
            (0, 0)).2 : ℚ) / 1000 :=
  C3_mapped_ratio_indexing [(0, 1000), (2000, 3000)] ("a. b. c.").toList 3
    (by decide) (by decide)

/-- C10: neither division of `analyze_voiceover_timing` divides by zero — it
never returns the modelled `ZeroDivisionError` (the fallback branch is reached
only with at least one word, hence a non-empty chunk list, and the ratio is
computed only when `chunk_count > audio_segment_count ≥ 1`); for text with no
words it returns the empty segment list without error whatever the detected
intervals. -/
theorem C10_no_div_by_zero (ranges_ms : List (ℕ × ℕ)) (text : List Char) (total : ℚ) :
    (∃ segs, analyze_voiceover_timing ranges_ms text total = Except.ok segs) ∧
    (pySplit text = [] → analyze_voiceover_timing ranges_ms text total = Except.ok []) := by
  constructor
  · by_cases hfb : 2 * ranges_ms.length < (pySplit text).length
    · exact ⟨_, analyze_fallback_eq ranges_ms text total hfb⟩
    · push_neg at hfb
      by_cases hle : (chunkWords (pySplit text)).length ≤ ranges_ms.length
      · exact ⟨_, analyze_mapped_oneone_eq ranges_ms text total hfb hle⟩
      · push_neg at hle
        exact ⟨_, analyze_mapped_ratio_eq ranges_ms text total hfb hle⟩
  · intro hnil
    rw [analyze_mapped_oneone_eq ranges_ms text total (by rw [hnil]; simp)
      (by rw [hnil]; simp [chunkWords, chunkWordsAux])]
    rw [hnil]
    simp [chunkWords, chunkWordsAux]

/-- Witness for C10: whitespace-only text with one detected interval. -/
theorem C10_no_div_by_zero_witness :
    (∃ segs, analyze_voiceover_timing [(0, 1000)] ("   ").toList 10 = Except.ok segs) ∧
    analyze_voiceover_timing [(0, 1000)] ("   ").toList 10 = Except.ok [] :=
  ⟨(C10_no_div_by_zero [(0, 1000)] ("   ").toList 10).1,
   (C10_no_div_by_zero [(0, 1000)] ("   ").toList 10).2 (by decide)⟩

/-- C7 counterexample: a successfully fetched response whose body is the empty
JSON object `{}` matches none of the known keys, so `get_fact` evaluates
`list(data.values())[0]` on an empty list and the resulting `IndexError` is not
caught by the `except (requests.RequestException, json.JSONDecodeError)`
clause: the failure propagates instead of returning a fallback fact. -/
theorem C7_counterexample :
    get_fact (FetchOutcome.jsonBody (Json.obj [])) ⟨0, by norm_num⟩ =
      Except.error PyErr.indexError := rfl

/-- C7 (amended): `get_fact` tolerates plain-text responses, JSON strings,
JSON objects with a known key (and, failing that, any non-empty JSON object by
taking its first value), and JSON lists and numbers (stringified).  A body
that fails JSON decoding is caught by the inner
`except json.JSONDecodeError` and the raw response text is returned verbatim
as the fact; only request failures (`requests.RequestException`, including bad
status codes) return one of the five built-in fallback facts.  The single
exception is a JSON object with no known key and no entries at all, where the
`IndexError` from `list(data.values())[0]` propagates to the caller. -/
theorem C7_get_fact_errors (outcome : FetchOutcome) (choice : Fin 5) :
    ((∃ e, get_fact outcome choice = Except.error e) ↔
      outcome = FetchOutcome.jsonBody (Json.obj [])) ∧
    (outcome = FetchOutcome.requestError →
      get_fact outcome choice = Except.ok (FactResult.text (fallback_facts.getD choice.val ""))
        ∧ fallback_facts.getD choice.val "" ∈ fallback_facts) ∧
    (∀ body, outcome = FetchOutcome.plainText body →
      get_fact outcome choice = Except.ok (FactResult.text body)) ∧
    fallback_facts.length = 5 := by
  refine ⟨⟨?_, ?_⟩, ?_, ?_, rfl⟩
  · intro ⟨e, he⟩
    cases outcome with
    | requestError => exact absurd he (by simp [get_fact])
    | plainText body => exact absurd he (by simp [get_fact])
    | jsonBody v =>
      cases v with
      | str s => exact absurd he (by simp [get_fact])
      | num n => exact absurd he (by simp [get_fact])
      | arr elems => exact absurd he (by simp [get_fact])
      | obj entries =>
        cases hfind : knownKeys.findSome? (fun k => entries.lookup k) with
        | some val => simp [get_fact, hfind] at he
        | none =>
          cases entries with
          | nil => rfl
          | cons p rest =>
            cases p with
            | mk key val => simp [get_fact, hfind] at he
  · intro h
    subst h
    exact ⟨PyErr.indexError, rfl⟩
  · intro h
    subst h
    refine ⟨rfl, ?_⟩
    have hlt : choice.val < fallback_facts.length := by
      have := choice.isLt
      simp only [show fallback_facts.length = 5 from rfl]
      omega
    rw [List.getD_eq_getElem?_getD, List.getElem?_eq_getElem hlt]
    exact List.getElem_mem hlt
  · intro body h
    subst h
    rfl

/-- Witness for C7: a request error yields the first fallback fact (a member of
the built-in list); a non-JSON body is returned verbatim, not replaced by a
fallback fact. -/
theorem C7_get_fact_errors_witness :
    (get_fact FetchOutcome.requestError ⟨0, by norm_num⟩ =
        Except.ok (FactResult.text (fallback_facts.getD (0 : ℕ) "")) ∧
      fallback_facts.getD (0 : ℕ) "" ∈ fallback_facts) ∧
    get_fact (FetchOutcome.plainText "Bananas are berries.") ⟨0, by norm_num⟩ =
      Except.ok (FactResult.text "Bananas are berries.") :=
  ⟨(C7_get_fact_errors FetchOutcome.requestError ⟨0, by norm_num⟩).2.1 rfl,
   (C7_get_fact_errors (FetchOutcome.plainText "Bananas are berries.")
      ⟨0, by norm_num⟩).2.2.1 "Bananas are berries." rfl⟩

theorem preprocess_clip_duration_eq (raw d : ℚ) : preprocess_clip_duration raw d = d := by
  unfold preprocess_clip_duration
  split_ifs with h1 h2
  · rfl
  · rfl
  · linarith

/-- C8: in `assemble_multi_background_video`, a failed background download (or
preprocessing) for segment `i` is replaced by a solid-color clip of exactly
that segment's duration, while every segment whose download succeeds gets a
video clip preprocessed to its duration: the failure affects only that
segment, the output covers every segment, and the loop never aborts. -/
theorem C8_segment_local_fallback (sentence_data : List SegmentData)
    (outcome : ℕ → Except Unit ℚ) :
    (assemble_background_segments sentence_data outcome).length = sentence_data.length ∧
    ∀ i, i < sentence_data.length →
      (outcome i = Except.error () →
        (assemble_background_segments sentence_data outcome).getD i default =
          BgClip.color ((sentence_data.getD i default).duration)) ∧
      (∀ raw, outcome i = Except.ok raw →
        (assemble_background_segments sentence_data outcome).getD i default =
          BgClip.video ((sentence_data.getD i default).duration)) := by
  constructor
  · simp [assemble_background_segments]
  · intro i hi
    have hgetD : (assemble_background_segments sentence_data outcome).getD i default =
        (match outcome (sentence_data.enum.getD i default).1 with
         | .ok raw => BgClip.video
            (preprocess_clip_duration raw (sentence_data.enum.getD i default).2.duration)
         | .error _ => BgClip.color (sentence_data.enum.getD i default).2.duration) := by
      unfold assemble_background_segments
      exact getD_map_lt sentence_data.enum _ i (by simpa using hi) default default
    have henum : sentence_data.enum.getD i default = (i, sentence_data.getD i default) := by
      rw [List.getD_eq_getElem?_getD, List.getElem?_eq_getElem (by simpa using hi),
        List.getD_eq_getElem?_getD, List.getElem?_eq_getElem hi]
      simp [List.getElem_enum]
    constructor
    · intro herr
      rw [hgetD, henum]
      simp only [herr]
    · intro raw hok
      rw [hgetD, henum]
      simp only [hok]
      rw [preprocess_clip_duration_eq]

/-- Witness for C8: two segments; the download for segment 0 fails and yields a
solid-color clip of duration 2, segment 1 succeeds and yields a video clip of
its duration 3. -/
theorem C8_segment_local_fallback_witness :
    (assemble_background_segments
        [⟨("hi").toList, ["ocean"], 2⟩, ⟨("yo").toList, ["city"], 3⟩]
        (fun i => if i = 0 then Except.error () else Except.ok 7)).length =
      ([⟨("hi").toList, ["ocean"], 2⟩, ⟨("yo").toList, ["city"], 3⟩] :
        List SegmentData).length ∧
    (assemble_background_segments
        [⟨("hi").toList, ["ocean"], 2⟩, ⟨("yo").toList, ["city"], 3⟩]
        (fun i => if i = 0 then Except.error () else Except.ok 7)).getD 0 default =
      BgClip.color 2 ∧
    (assemble_background_segments
        [⟨("hi").toList, ["ocean"], 2⟩, ⟨("yo").toList, ["city"], 3⟩]
        (fun i => if i = 0 then Except.error () else Except.ok 7)).getD 1 default =
      BgClip.video 3 := by
  obtain ⟨h1, h2⟩ := C8_segment_local_fallback
    [⟨("hi").toList, ["ocean"], 2⟩, ⟨("yo").toList, ["city"], 3⟩]
    (fun i => if i = 0 then Except.error () else Except.ok 7)
  exact ⟨h1, (h2 0 (by norm_num)).1 rfl, (h2 1 (by norm_num)).2 7 rfl⟩

/-- The source-loop of `download_background_clip` succeeds with the temp path
exactly when some source attempt succeeds, and raises otherwise. -/
theorem trySourcesLoop_eq (temp_video_path : String) :
    ∀ os : List SourceOutcome, trySourcesLoop temp_video_path os =
      (if SourceOutcome.success ∈ os then Except.ok temp_video_path
       else Except.error ()) := by
  intro os
  induction os with
  | nil => simp [trySourcesLoop]
  | cons o rest ih =>
    cases o with
    | success => simp [trySourcesLoop]
    | noResults =>
      rw [show trySourcesLoop temp_video_path (SourceOutcome.noResults :: rest) =
        trySourcesLoop temp_video_path rest from rfl, ih]
      simp
    | failure =>
      rw [show trySourcesLoop temp_video_path (SourceOutcome.failure :: rest) =
        trySourcesLoop temp_video_path rest from rfl, ih]
      simp

/-- C9 counterexample: with keywords ["ocean","wave"], a local backgrounds
directory containing a matching file `ocean_sunset.mp4`, and every remote
source failing, the resolver raises instead of picking the local match:
`download_background_clip` never consults the local directory. -/
theorem C9_counterexample :
    select_background ["ocean", "wave"] ⟨["ocean_sunset.mp4", "city_traffic.mp4"]⟩
        (fun _ => [SourceOutcome.failure, SourceOutcome.failure, SourceOutcome.failure]) =
      Except.error () ∧
    (Except.error () : Except Unit String) ≠ Except.ok "ocean_sunset.mp4" :=
  ⟨rfl, by simp⟩

/-- C9 (amended): the Background Resolver has no local-first policy — the
result of `download_background_clip` is entirely independent of the local
backgrounds directory's contents, and equals the temp path
`background_{index}.mp4` exactly when some configured remote source attempt
succeeds for the keyword query ("nature" for empty keywords), raising
otherwise. -/
theorem C9_resolver_no_local (keywords : List String) (files1 files2 : List String)
    (attempts : String → List SourceOutcome) (index : ℕ) :
    download_background_clip keywords ⟨files1⟩ attempts index =
      download_background_clip keywords ⟨files2⟩ attempts index ∧
    download_background_clip keywords ⟨files1⟩ attempts index =
      (if SourceOutcome.success ∈ attempts (if keywords.isEmpty then "nature"
          else String.intercalate "+" (keywords.take 3))
       then Except.ok ("background_" ++ toString index ++ ".mp4")
       else Except.error ()) := by
  refine ⟨rfl, ?_⟩
  unfold download_background_clip
  exact trySourcesLoop_eq _ _
